import Mathlib

/-!
PocketSDR `pocket_trk.c` : receiver core

A shallow embedding of the receiver part of `src/app/pocket_trk/pocket_trk.c`
(IF ring buffer, channel threads, search scheduler, receiver construction)
together with theorems about it.

Conventions of the embedding

* C `int` and `int64_t` values are mathematical integers (`Int`).  All the
  arithmetic of the embedded functions is signed, so the C program has a
  defined meaning only while no intermediate value leaves its type; the
  definitions below describe the program on that range.  C `/` and `%` are
  `Int.tdiv` and `Int.tmod` (truncation toward zero); a zero divisor is
  reported as `Res.div_zero`.
* The channel array `rcv->ch[0 .. nch-1]` together with its count `rcv->nch`
  is a `List`; `rcv_t.nch` is its length.
* An array access outside its bounds is reported as `Res.out_of_bounds`.
* A loop without a syntactic bound takes a fuel argument, the number of
  loop tests it may perform; `Res.out_of_fuel` means the budget was used up.
* A `float` pair `sdr_cpx_t` holds integers of magnitude at most 128 here,
  which binary32 represents exactly, so it is a pair of `Int`.
-/

namespace PocketTrk

/-! ## Constants -/

/-- Max number of IF data buffer cycles, `#define MAX_BUFF 1000`. -/
def MAX_BUFF : Int := 1000

/-- Receiver channel log cycle, `#define LOG_CYC 1000`. -/
def LOG_CYC : Int := 1000

/-- Data read cycle in seconds, `#define T_CYC 1e-3`. -/
def T_CYC : ℚ := 1 / 1000

/-! ## Results -/

/-- Outcome of running a piece of the program. -/
inductive Res (α : Type) where
  | ok (val : α)
  | div_zero
  | out_of_bounds
  | out_of_fuel
  deriving DecidableEq, Repr

/-! ## Types -/

/-- Complex sample `sdr_cpx_t` (`float[2]`): real and imaginary part. -/
abbrev sdr_cpx_t := Int × Int

/-- The fields of the SDR receiver channel `sdr_ch_t` read or written by
`pocket_trk.c`: state tag, display number, signal, PRN, samples per code
cycle. -/
structure sdr_ch_t where
  state : String
  no : Int
  sig : String
  prn : Int
  N : Int
  deriving DecidableEq, Repr

/-- Receiver channel `rcv_ch_t`: the SDR channel and the IF buffer read
pointer (the back pointer to the receiver and the thread handle are left to
the functions that use them). -/
structure rcv_ch_t where
  ch : sdr_ch_t
  ix : Int
  deriving DecidableEq, Repr

/-- Receiver `rcv_t`.  `fp` is the unread rest of the data file, one `int8_t`
value per byte. -/
structure rcv_t where
  ich : Int
  ch : List rcv_ch_t
  ix : Int
  buff : List sdr_cpx_t
  N : Int
  len_buff : Int
  fp : List Int
  fmt : Int
  raw : List Int
  deriving DecidableEq, Repr

/-- Number of receiver channels `rcv->nch`. -/
def rcv_t.nch (rcv : rcv_t) : Int := rcv.ch.length

/-- Array read `a[i]` with a C `int` index. -/
def arr_get {α : Type} (a : List α) (i : Int) : Option α :=
  if 0 ≤ i then a[i.toNat]? else none

/-! ## Search scheduler : `rcv_update_srch` -/

/-- The `for` loop of `rcv_update_srch`, entered at its test with loop
variable `i`.  `continue` goes to the increment `i = (i + 1) % rcv->nch`. -/
def srch_scan (rcv : rcv_t) : Nat → Int → Res rcv_t
  | 0, _ => .out_of_fuel
  | fuel + 1, i =>
    if i = rcv.ich then .ok rcv
    else
      match arr_get rcv.ch i with
      | none => .out_of_bounds
      | some c =>
        if c.ch.state ≠ "IDLE" then srch_scan rcv fuel (Int.tmod (i + 1) rcv.nch)
        else
          .ok { rcv with
                ich := i
                ch := rcv.ch.set i.toNat { c with ch := { c.ch with state := "SRCH" } } }

/-- The part of `rcv_update_srch` after the early return: the loop
initialisation `i = (i + 1) % rcv->nch` and the loop. -/
def srch_for (fuel : Nat) (rcv : rcv_t) : Res rcv_t :=
  if rcv.nch = 0 then .div_zero
  else srch_scan rcv fuel (Int.tmod (rcv.ich + 1) rcv.nch)

/-- Update signal search channel, `rcv_update_srch`. -/
def rcv_update_srch (fuel : Nat) (rcv : rcv_t) : Res rcv_t :=
  if 0 ≤ rcv.ich then
    match arr_get rcv.ch rcv.ich with
    | none => .out_of_bounds
    | some c => if c.ch.state = "SRCH" then .ok rcv else srch_for fuel rcv
  else srch_for fuel rcv

/-- Receiver with the given candidate index and channel states, every other
field zero. -/
def rcv_of (ich : Int) (states : List String) : rcv_t :=
  { ich := ich
    ch := states.map (fun s => { ch := { state := s, no := 0, sig := "", prn := 0, N := 0 }, ix := 0 })
    ix := 0, buff := [], N := 0, len_buff := 0, fp := [], fmt := 0, raw := [] }

/-- Channel states of a receiver, in channel order. -/
def rcv_t.states (rcv : rcv_t) : List String := rcv.ch.map (fun c => c.ch.state)

/-- Modelled from the spec: the channel's own logic (`sdr_ch_update`, declared
in `pocket_sdr.h`, and `rcv_ch_free`) rewrites the state tag of the channel it
owns; the scheduler is the only writer of "SRCH" (spec 4.3), so a
channel-owned transition sets the tag of channel `i` to any `s` other than
"SRCH" (SRCH to IDLE, SRCH to LOCK, LOCK to IDLE, and the stop tag). -/
def chan_step (rcv : rcv_t) (i : Nat) (s : String) : Option rcv_t :=
  match rcv.ch[i]? with
  | none => none
  | some c =>
    if s ≠ "SRCH" then
      some { rcv with ch := rcv.ch.set i { c with ch := { c.ch with state := s } } }
    else none

/-- One step of an interleaving: a call of `rcv_update_srch` by the cycle
loop (with a fuel budget) or a channel-owned transition. -/
inductive Event where
  | sched (fuel : Nat)
  | chan (i : Nat) (s : String)
  deriving DecidableEq, Repr

/-- Runs an interleaving; `none` when a step is not enabled or the scheduler
call does not return. -/
def run : rcv_t → List Event → Option rcv_t
  | r, [] => some r
  | r, .sched fuel :: es =>
    match rcv_update_srch fuel r with
    | .ok r1 => run r1 es
    | _ => none
  | r, .chan i s :: es =>
    match chan_step r i s with
    | some r1 => run r1 es
    | none => none

/-- Scheduler invariant: a channel in SRCH sits at the candidate index. -/
def srch_inv (rcv : rcv_t) : Prop :=
  ∀ (i : Nat) (c : rcv_ch_t), rcv.ch[i]? = some c → c.ch.state = "SRCH" → (i : Int) = rcv.ich

/-! ## Channel thread : `rcv_ch_thread` -/

/-- What the thread reads from shared memory around one loop test: the
channel state tag and the receiver write pointer `ch->rcv->ix`. -/
structure Snap where
  state : String
  W : Int
  deriving DecidableEq, Repr

/-- One call of `sdr_ch_update` by the thread: cycle index `ix`, the write
pointer `W` read at the loop test before the call, the buffer offset
passed, and whether the channel log line was written after it. -/
structure Call where
  ix : Int
  W : Int
  off : Int
  log : Bool
  deriving DecidableEq, Repr

/-- Position of the thread: at the `while` test or at the `for` test. -/
inductive Pc where
  | outer
  | inner
  deriving DecidableEq, Repr

/-- The loops of `rcv_ch_thread` for native multiple `n` and receiver cycle
length `N`, with read pointer `ix`; each loop test consumes one snapshot. -/
def thread_loop (n N : Int) : Pc → Int → List Snap → List Call
  | _, _, [] => []
  | .outer, ix, s :: rest =>
    if s.state ≠ "" then thread_loop n N .inner ix rest else []
  | .inner, ix, s :: rest =>
    if ix + 2 * n ≤ s.W + 1 then
      { ix := ix, W := s.W, off := N * Int.tmod ix MAX_BUFF,
        log := decide (s.state = "LOCK" ∧ Int.tmod ix LOG_CYC = 0) }
        :: thread_loop n N .inner (ix + n) rest
    else thread_loop n N .outer ix rest

/-- Receiver channel thread `rcv_ch_thread` of a channel with `chN` samples
per code cycle on a receiver with `rcvN` samples per cycle: the calls of
`sdr_ch_update` it makes over the given snapshots. -/
def rcv_ch_thread (chN rcvN : Int) (obs : List Snap) : Res (List Call) :=
  if rcvN = 0 then .div_zero
  else .ok (thread_loop (Int.tdiv chN rcvN) rcvN .outer 0 obs)

/-! ## IF buffer : `rcv_read_data`, `buff_usage` -/

/-- Sample `j` of a real (`int8`) cycle: `(raw[j], 0.0)`. -/
def conv_I (raw : List Int) (j : Nat) : Option sdr_cpx_t :=
  match raw[j]? with
  | some a => some (a, 0)
  | none => none

/-- Sample `j` of an interleaved cycle: `(raw[j*2], -raw[j*2+1])`; the
`int8_t` operand is promoted to `int` before the negation. -/
def conv_IQ (raw : List Int) (j : Nat) : Option sdr_cpx_t :=
  match raw[j * 2]?, raw[j * 2 + 1]? with
  | some a, some b => some (a, -b)
  | _, _ => none

/-- The loop `for (int j = 0; j < rcv->N; i++, j++) buff[i] = conv j` with
`k` iterations left. -/
def store_loop (conv : Nat → Option sdr_cpx_t) :
    Nat → Nat → Int → List sdr_cpx_t → Res (List sdr_cpx_t)
  | 0, _, _, buff => .ok buff
  | k + 1, j, i, buff =>
    match conv j with
    | none => .out_of_bounds
    | some v =>
      if 0 ≤ i ∧ i < buff.length then
        store_loop conv k (j + 1) (i + 1) (buff.set i.toNat v)
      else .out_of_bounds

/-- The call `fread(raw, size, 1, fp)`: the item and the rest of the file
when one whole item of `size` bytes could be read. -/
def fread (size : Int) (fp : List Int) : Option (List Int × List Int) :=
  if 0 < size ∧ size ≤ fp.length then some (fp.take size.toNat, fp.drop size.toNat)
  else none

/-- Read IF data, `rcv_read_data`: return value and receiver afterwards.
After a short read the staging buffer is left as it was (C leaves it
indeterminate). -/
def rcv_read_data (rcv : rcv_t) (ix : Int) : Res (Int × rcv_t) :=
  let i := rcv.N * Int.tmod ix MAX_BUFF
  let size := rcv.N * (if rcv.fmt = 2 then 2 else 1)
  match fread size rcv.fp with
  | none => .ok (0, { rcv with fp := rcv.fp.drop size.toNat })
  | some (raw, rest) =>
    if rcv.fmt = 1 then
      match store_loop (conv_I raw) rcv.N.toNat 0 i rcv.buff with
      | .ok b => .ok (1, { rcv with raw := raw, fp := rest, buff := b, ix := ix })
      | .div_zero => .div_zero
      | .out_of_bounds => .out_of_bounds
      | .out_of_fuel => .out_of_fuel
    else if rcv.fmt = 2 then
      match store_loop (conv_IQ raw) rcv.N.toNat 0 i rcv.buff with
      | .ok b => .ok (1, { rcv with raw := raw, fp := rest, buff := b, ix := ix })
      | .div_zero => .div_zero
      | .out_of_bounds => .out_of_bounds
      | .out_of_fuel => .out_of_fuel
    else .ok (1, { rcv with raw := raw, fp := rest, ix := ix })

/-- The loop of `buff_usage`: the largest `rcv->ix + 1 - rcv->ch[i]->ix`,
starting from `max_nx = 0`. -/
def max_nx (rcv : rcv_t) : Int :=
  rcv.ch.foldl (fun m c => if rcv.ix + 1 - c.ix > m then rcv.ix + 1 - c.ix else m) 0

/-- IF buffer usage, `buff_usage`: `(double)max_nx / MAX_BUFF` as an exact
fraction. -/
def buff_usage (rcv : rcv_t) : ℚ := (max_nx rcv : ℚ) / (MAX_BUFF : ℚ)

/-! ## Receiver construction : `rcv_ch_new`, `rcv_new` -/

/-- The cast `(int)x` of a `double`: truncation toward zero. -/
def c_int (x : ℚ) : Int := Int.tdiv x.num x.den

/-- Modelled from the spec: `sdr_malloc` (declared in `pocket_sdr.h`) is not
in src; the receiver it returns starts with no worker (worker count zero,
spec 3 and 8) and every other field zero. -/
def sdr_malloc_rcv : rcv_t :=
  { ich := 0, ch := [], ix := 0, buff := [], N := 0, len_buff := 0, fp := [], fmt := 0, raw := [] }

/-- Modelled from the spec: `sdr_cpx_malloc` (declared in `pocket_sdr.h`) is
not in src; it gives a complex array of the requested length, taken as
zeroed. -/
def sdr_cpx_malloc (n : Int) : List sdr_cpx_t := List.replicate n.toNat (0, 0)

/-- New receiver channel, `rcv_ch_new`.  `sdr_ch_new` is the external channel
constructor (`none` for NULL) and `thread_ok` tells whether `pthread_create`
succeeded. -/
def rcv_ch_new (sdr_ch_new : String → Int → Option sdr_ch_t) (thread_ok : Bool)
    (sig : String) (prn : Int) : Option rcv_ch_t :=
  match sdr_ch_new sig prn with
  | none => none
  | some c => if thread_ok then some { ch := c, ix := 0 } else none

/-- The channel loop of `rcv_new` at index `i` over the remaining pairs
`(sigs[i], prns[i])`; the second component collects the pairs of the
"signal / prn error" lines written to stderr. -/
def rcv_new_loop (SDR_MAX_NCH : Int) (env_ch : Nat → String → Int → Option sdr_ch_t)
    (env_thr : Nat → Bool) :
    Nat → List (String × Int) → rcv_t × List (String × Int) → rcv_t × List (String × Int)
  | _, [], st => st
  | i, (sig, prn) :: rest, (rcv, errs) =>
    if rcv.nch < SDR_MAX_NCH then
      match rcv_ch_new (env_ch i) (env_thr i) sig prn with
      | some w =>
        rcv_new_loop SDR_MAX_NCH env_ch env_thr (i + 1) rest
          ({ rcv with ch := rcv.ch ++ [{ w with ch := { w.ch with no := rcv.nch + 1 } }] }, errs)
      | none =>
        rcv_new_loop SDR_MAX_NCH env_ch env_thr (i + 1) rest (rcv, errs ++ [(sig, prn)])
    else (rcv, errs)

/-- The receiver `rcv_new` sets up before its channel loop: candidate index
-1, cycle length `N`, buffer of `N * MAX_BUFF` samples, data file `fp`,
format `fmt`, staging buffer of `N` or `2 N` bytes, no channel. -/
def rcv_bare (N : Int) (fp : List Int) (fmt : Int) : rcv_t :=
  { sdr_malloc_rcv with
    ich := -1
    N := N
    len_buff := N * MAX_BUFF
    buff := sdr_cpx_malloc (N * MAX_BUFF)
    fp := fp
    fmt := fmt
    raw := List.replicate (N * (if fmt = 2 then 2 else 1)).toNat 0 }

/-- New receiver, `rcv_new`, for the `n` pairs `(sigs[i], prns[i])`, with
`rcv->N = (int)(T_CYC * fs)`.  `SDR_MAX_NCH` (from `pocket_sdr.h`) is a
parameter; `env_ch i` and `env_thr i` are the outcomes of `sdr_ch_new` and
`pthread_create` in iteration `i`. -/
def rcv_new (SDR_MAX_NCH : Int) (env_ch : Nat → String → Int → Option sdr_ch_t)
    (env_thr : Nat → Bool) (pairs : List (String × Int)) (fs : ℚ) (fp : List Int)
    (fmt : Int) : rcv_t × List (String × Int) :=
  rcv_new_loop SDR_MAX_NCH env_ch env_thr 0 pairs (rcv_bare (c_int (T_CYC * fs)) fp fmt, [])

/-- Receiver with write pointer `W` and one worker per given read pointer,
every other field zero. -/
def rcv_cursors (W : Int) (ixs : List Int) : rcv_t :=
  { sdr_malloc_rcv with
    ix := W
    ch := ixs.map (fun x => { ch := { state := "LOCK", no := 0, sig := "", prn := 0, N := 0 }, ix := x }) }

/-- Outcome of `rcv_ch_new` in iteration `i` of the loop of `rcv_new` for the
pair `p`. -/
def ch_outcome (env_ch : Nat → String → Int → Option sdr_ch_t) (env_thr : Nat → Bool)
    (ip : Nat × (String × Int)) : Option rcv_ch_t :=
  rcv_ch_new (env_ch ip.1) (env_thr ip.1) ip.2.1 ip.2.2

/-- Gives the workers of a list the display numbers `k + 1, k + 2, ...`. -/
def number_from (k : Nat) (ws : List rcv_ch_t) : List rcv_ch_t :=
  (ws.enumFrom k).map (fun kw => { kw.2 with ch := { kw.2.ch with no := (kw.1 : Int) + 1 } })

/-- Sample environment for `sdr_ch_new` (spec 8: PRN 0 is invalid): PRN 0 is
rejected, any other PRN gives an IDLE channel of 12000 samples per code
cycle. -/
def env_ch_sample (_i : Nat) (sig : String) (prn : Int) : Option sdr_ch_t :=
  if prn = 0 then none else some { state := "IDLE", no := 0, sig := sig, prn := prn, N := 12000 }

/-- The format selection of `main`, `fmt = (fmt == 1 && fi > 0.0) ? 1 : 2`,
whose result is the selector handed to `rcv_new`. -/
def main_fmt (fmt : Int) (fi : ℚ) : Int :=
  if fmt = 1 ∧ fi > 0 then 1 else 2

/-! ## Status cadence in `main` -/

/-- The test `!quiet && ix % (int)(tint / T_CYC) == 0` of the cycle loop of
`main`; the quotient of the two doubles is taken exactly. -/
def status_due (quiet : Bool) (tint : ℚ) (ix : Int) : Res Bool :=
  if quiet then .ok false
  else if c_int (tint / T_CYC) = 0 then .div_zero
  else .ok (decide (Int.tmod ix (c_int (tint / T_CYC)) = 0))

/-! ## Search scheduler : invariant -/

theorem arr_get_some {α : Type} {a : List α} {i : Int} {x : α} (h : arr_get a i = some x) :
    0 ≤ i ∧ a[i.toNat]? = some x := by
  unfold arr_get at h
  split at h
  · exact ⟨by assumption, h⟩
  · cases h

theorem countP_le_one_of_index {α : Type} (p : α → Bool) :
    ∀ (l : List α),
      (∀ (i j : Nat) (a b : α), l[i]? = some a → l[j]? = some b → p a = true → p b = true → i = j) →
      l.countP p ≤ 1
  | [], _ => by simp
  | x :: xs, h => by
    have hxs : ∀ (i j : Nat) (a b : α), xs[i]? = some a → xs[j]? = some b →
        p a = true → p b = true → i = j := by
      intro i j a b ha hb pa pb
      have := h (i + 1) (j + 1) a b (by simpa using ha) (by simpa using hb) pa pb
      omega
    have ih := countP_le_one_of_index p xs hxs
    by_cases hx : p x = true
    · have hzero : xs.countP p = 0 := by
        rw [List.countP_eq_zero]
        intro b hb pb
        obtain ⟨j, hj⟩ := List.getElem?_of_mem hb
        have := h 0 (j + 1) x b (by simp) (by simpa using hj) hx pb
        omega
      rw [List.countP_cons_of_pos _ _ hx, hzero]
    · rw [List.countP_cons_of_neg _ _ hx]
      exact ih

theorem srch_scan_inv (rcv : rcv_t)
    (hno : ∀ (k : Nat) (d : rcv_ch_t), rcv.ch[k]? = some d → d.ch.state ≠ "SRCH") :
    ∀ (fuel : Nat) (i : Int) (r : rcv_t), srch_scan rcv fuel i = .ok r → srch_inv r
  | 0, _, _, h => by simp [srch_scan] at h
  | fuel + 1, i, r, h => by
    unfold srch_scan at h
    split at h
    · cases h
      intro k d hk hd
      exact absurd hd (hno k d hk)
    · split at h
      · cases h
      · rename_i c hc
        split at h
        · exact srch_scan_inv rcv hno fuel _ r h
        · cases h
          obtain ⟨hi0, _⟩ := arr_get_some hc
          intro k d hk hd
          simp only [List.getElem?_set] at hk
          split at hk
          · rename_i hik
            show (k : Int) = i
            omega
          · exact absurd hd (hno k d hk)

theorem rcv_update_srch_inv (fuel : Nat) (rcv r : rcv_t) (hinv : srch_inv rcv)
    (h : rcv_update_srch fuel rcv = .ok r) : srch_inv r := by
  unfold rcv_update_srch at h
  split at h
  · split at h
    · cases h
    · rename_i c hc
      split at h
      · cases h; exact hinv
      · rename_i hns
        obtain ⟨hi0, hget⟩ := arr_get_some hc
        have hno : ∀ (k : Nat) (d : rcv_ch_t), rcv.ch[k]? = some d → d.ch.state ≠ "SRCH" := by
          intro k d hk hd
          have hki := hinv k d hk hd
          have : k = rcv.ich.toNat := by omega
          subst this
          rw [hget] at hk
          cases hk
          exact hns hd
        unfold srch_for at h
        split at h
        · cases h
        · exact srch_scan_inv rcv hno fuel _ r h
  · rename_i hneg
    have hno : ∀ (k : Nat) (d : rcv_ch_t), rcv.ch[k]? = some d → d.ch.state ≠ "SRCH" := by
      intro k d hk hd
      have hki := hinv k d hk hd
      omega
    unfold srch_for at h
    split at h
    · cases h
    · exact srch_scan_inv rcv hno fuel _ r h

theorem chan_step_inv (rcv r : rcv_t) (i : Nat) (s : String) (hinv : srch_inv rcv)
    (h : chan_step rcv i s = some r) : srch_inv r := by
  unfold chan_step at h
  split at h
  · cases h
  · split at h
    · rename_i hs
      cases h
      intro k d hk hd
      simp only [List.getElem?_set] at hk
      split at hk
      · split at hk
        · cases hk
          exact absurd hd hs
        · cases hk
      · exact hinv k d hk hd
    · cases h

theorem run_inv : ∀ (evs : List Event) (rcv r : rcv_t), srch_inv rcv → run rcv evs = some r →
    srch_inv r
  | [], rcv, r, hinv, h => by
    simp only [run, Option.some.injEq] at h
    exact h ▸ hinv
  | .sched fuel :: es, rcv, r, hinv, h => by
    simp only [run] at h
    split at h
    · rename_i r1 h1
      exact run_inv es r1 r (rcv_update_srch_inv fuel rcv r1 hinv h1) h
    · cases h
  | .chan i s :: es, rcv, r, hinv, h => by
    simp only [run] at h
    split at h
    · rename_i r1 h1
      exact run_inv es r1 r (chan_step_inv rcv r1 i s hinv h1) h
    · cases h

/-- C2 (single admission): from a receiver with candidate index -1 and no
channel in SRCH, after any interleaving of `rcv_update_srch` calls and
channel-owned transitions that never write SRCH, at most one channel is in
SRCH, and a channel in SRCH is the one at index `ich`. -/
theorem single_admission (r0 r : rcv_t) (evs : List Event)
    (_hich : r0.ich = -1) (hno : ∀ c ∈ r0.ch, c.ch.state ≠ "SRCH")
    (hrun : run r0 evs = some r) :
    r.ch.countP (fun c => decide (c.ch.state = "SRCH")) ≤ 1 ∧
    ∀ (i : Nat) (c : rcv_ch_t), r.ch[i]? = some c → c.ch.state = "SRCH" → (i : Int) = r.ich := by
  have h0 : srch_inv r0 := by
    intro k d hk hd
    exact absurd hd (hno d (List.getElem?_mem hk))
  have hinv := run_inv evs r0 r h0 hrun
  refine ⟨?_, hinv⟩
  apply countP_le_one_of_index
  intro i j a b ha hb pa pb
  have h1 := hinv i a ha (by simpa using pa)
  have h2 := hinv j b hb (by simpa using pb)
  omega

/-- Witness for C2: two scheduler calls around a failed search of channel 0
leave channel 1 as the only channel in SRCH. -/
theorem single_admission_witness :
    run (rcv_of (-1) ["IDLE", "IDLE"]) [.sched 3, .chan 0 "IDLE", .sched 3]
        = some (rcv_of 1 ["IDLE", "SRCH"]) ∧
    (rcv_of 1 ["IDLE", "SRCH"]).ch.countP (fun c => decide (c.ch.state = "SRCH")) ≤ 1 ∧
    ∀ (i : Nat) (c : rcv_ch_t), (rcv_of 1 ["IDLE", "SRCH"]).ch[i]? = some c →
      c.ch.state = "SRCH" → (i : Int) = (rcv_of 1 ["IDLE", "SRCH"]).ich :=
  ⟨by decide,
   single_admission (rcv_of (-1) ["IDLE", "IDLE"]) (rcv_of 1 ["IDLE", "SRCH"])
     [.sched 3, .chan 0 "IDLE", .sched 3] (by decide) (by decide) (by decide)⟩

/-! ## Search scheduler : scan -/

/-- C3 (round-robin promotion), evaluation of the code: with one channel,
candidate index 0 and that channel IDLE (not in SRCH), `rcv_update_srch`
returns with the receiver unchanged for every budget of at least one loop
test: the loop starts at `(0 + 1) % 1 = 0`, which is the candidate index, so
its test fails before any channel is examined and nothing is promoted. -/
theorem candidate_not_rescanned (fuel : Nat) :
    (rcv_of 0 ["IDLE"]).states = ["IDLE"] ∧
    rcv_update_srch (fuel + 1) (rcv_of 0 ["IDLE"]) = .ok (rcv_of 0 ["IDLE"]) := by
  refine ⟨by decide, ?_⟩
  have h1 : arr_get (rcv_of 0 ["IDLE"]).ch (rcv_of 0 ["IDLE"]).ich
      = some { ch := { state := "IDLE", no := 0, sig := "", prn := 0, N := 0 }, ix := 0 } := by
    decide
  have h2 : Int.tmod ((rcv_of 0 ["IDLE"]).ich + 1) (rcv_of 0 ["IDLE"]).nch
      = (rcv_of 0 ["IDLE"]).ich := by decide
  have h3 : 0 ≤ (rcv_of 0 ["IDLE"]).ich := by decide
  have h4 : (rcv_of 0 ["IDLE"]).nch ≠ 0 := by decide
  unfold rcv_update_srch
  rw [if_pos h3, h1]
  simp only
  rw [if_neg (by decide)]
  unfold srch_for
  rw [if_neg h4, h2]
  unfold srch_scan
  rw [if_pos rfl]

theorem srch_scan_lock_diverges :
    ∀ fuel : Nat, srch_scan (rcv_of (-1) ["LOCK"]) fuel 0 = .out_of_fuel
  | 0 => rfl
  | fuel + 1 => by
    have ih := srch_scan_lock_diverges fuel
    have h1 : arr_get (rcv_of (-1) ["LOCK"]).ch 0
        = some { ch := { state := "LOCK", no := 0, sig := "", prn := 0, N := 0 }, ix := 0 } := by
      decide
    have h2 : Int.tmod (0 + 1) (rcv_of (-1) ["LOCK"]).nch = 0 := by decide
    have h3 : ¬ ((0 : Int) = (rcv_of (-1) ["LOCK"]).ich) := by decide
    unfold srch_scan
    rw [if_neg h3, h1]
    simp only [h2]
    rw [if_pos (by decide)]
    exact ih

/-- C4 (bounded scan), evaluation of the code: on the receiver that `rcv_new`
builds from an empty signal/PRN list (no channel, candidate index -1) the loop
initialisation `(i + 1) % rcv->nch` divides by zero; and with candidate index
-1, one channel and that channel in LOCK the loop test `i != rcv->ich` never
fails, so no budget of loop tests lets the call return. -/
theorem scan_not_bounded :
    (∀ (SDR_MAX_NCH : Int) (env_ch : Nat → String → Int → Option sdr_ch_t)
        (env_thr : Nat → Bool) (fs : ℚ) (fp : List Int) (fmt : Int) (fuel : Nat),
      rcv_update_srch fuel (rcv_new SDR_MAX_NCH env_ch env_thr [] fs fp fmt).1 = .div_zero) ∧
    (∀ fuel : Nat, rcv_update_srch fuel (rcv_of (-1) ["LOCK"]) = .out_of_fuel) := by
  constructor
  · intro MAX env_ch env_thr fs fp fmt fuel
    simp [rcv_update_srch, rcv_new, rcv_new_loop, rcv_bare, srch_for, rcv_t.nch, sdr_malloc_rcv]
  · intro fuel
    have h2 : Int.tmod ((rcv_of (-1) ["LOCK"]).ich + 1) (rcv_of (-1) ["LOCK"]).nch = 0 := by decide
    have h3 : ¬ (0 ≤ (rcv_of (-1) ["LOCK"]).ich) := by decide
    have h4 : (rcv_of (-1) ["LOCK"]).nch ≠ 0 := by decide
    unfold rcv_update_srch
    rw [if_neg h3]
    unfold srch_for
    rw [if_neg h4, h2]
    exact srch_scan_lock_diverges fuel

/-! ## Channel thread : lag -/

theorem thread_loop_calls (n N : Int) :
    ∀ (obs : List Snap) (pc : Pc) (ix : Int) (c : Call), c ∈ thread_loop n N pc ix obs →
      c.ix + 2 * n ≤ c.W + 1 ∧ c.off = N * Int.tmod c.ix MAX_BUFF
  | [], pc, ix, c, h => by
    cases pc <;> simp [thread_loop] at h
  | s :: rest, .outer, ix, c, h => by
    simp only [thread_loop] at h
    split at h
    · exact thread_loop_calls n N rest .inner ix c h
    · simp at h
  | s :: rest, .inner, ix, c, h => by
    simp only [thread_loop] at h
    split at h
    · rename_i hle
      rcases List.mem_cons.mp h with h1 | h1
      · subst h1
        exact ⟨hle, rfl⟩
      · exact thread_loop_calls n N rest .inner (ix + n) c h1
    · exact thread_loop_calls n N rest .outer ix c h

/-- C1 (lag invariant): for a worker with native multiple
`n = ch.N / rcv.N >= 1` and any sequence of snapshots of the shared state,
the thread runs, and every cycle index `ix` it hands to `sdr_ch_update`
satisfies `ix + 2n <= W + 1` for the write pointer `W` read at the loop test
before the call; so every receiver cycle `k` of the span `ix .. ix+2n-1`
has `k <= W`. -/
theorem lag_invariant (chN rcvN : Int) (obs : List Snap)
    (hn : 1 ≤ Int.tdiv chN rcvN) :
    ∃ calls, rcv_ch_thread chN rcvN obs = .ok calls ∧
      ∀ c ∈ calls, c.ix + 2 * Int.tdiv chN rcvN ≤ c.W + 1 ∧
        ∀ k : Int, c.ix ≤ k → k < c.ix + 2 * Int.tdiv chN rcvN → k ≤ c.W := by
  have hN : rcvN ≠ 0 := by
    intro h0
    rw [h0, Int.tdiv_zero] at hn
    omega
  refine ⟨thread_loop (Int.tdiv chN rcvN) rcvN .outer 0 obs, ?_, ?_⟩
  · unfold rcv_ch_thread
    rw [if_neg hN]
  · intro c hc
    have h := (thread_loop_calls _ _ obs .outer 0 c hc).1
    refine ⟨h, ?_⟩
    intro k _ hk
    omega

/-- Witness for C1: a worker with `n = 2` seeing the write pointer go 0, 3,
3, 5, 5 processes cycle 0 at `W = 3` and cycle 2 at `W = 5`. -/
theorem lag_invariant_witness :
    rcv_ch_thread 24000 12000
        [⟨"IDLE", 0⟩, ⟨"IDLE", 0⟩, ⟨"IDLE", 3⟩, ⟨"LOCK", 3⟩, ⟨"LOCK", 5⟩, ⟨"LOCK", 5⟩]
      = .ok [⟨0, 3, 0, true⟩, ⟨2, 5, 24000, false⟩] ∧
    ∃ calls, rcv_ch_thread 24000 12000
        [⟨"IDLE", 0⟩, ⟨"IDLE", 0⟩, ⟨"IDLE", 3⟩, ⟨"LOCK", 3⟩, ⟨"LOCK", 5⟩, ⟨"LOCK", 5⟩]
      = .ok calls ∧
      ∀ c ∈ calls, c.ix + 2 * Int.tdiv 24000 12000 ≤ c.W + 1 ∧
        ∀ k : Int, c.ix ≤ k → k < c.ix + 2 * Int.tdiv 24000 12000 → k ≤ c.W :=
  ⟨by decide, lag_invariant 24000 12000 _ (by decide)⟩

/-! ## Status cadence -/

/-- C10 (status cadence), evaluation of the code: for the positive interval
`tint = 0.0005` s with the status display enabled, `(int)(tint / T_CYC)` is
`(int)0.5 = 0` and the test `ix % (int)(tint / T_CYC)` divides by zero at
every cycle index. -/
theorem status_cadence_div_zero (ix : Int) :
    (0 : ℚ) < 1 / 2000 ∧ c_int ((1 / 2000 : ℚ) / T_CYC) = 0 ∧
    status_due false (1 / 2000) ix = .div_zero := by
  have h : c_int ((1 / 2000 : ℚ) / T_CYC) = 0 := by
    have hq : (1 / 2000 : ℚ) / T_CYC = 1 / 2 := by
      unfold T_CYC
      norm_num
    rw [hq]
    unfold c_int
    have h1 : (1 / 2 : ℚ).num = 1 := by norm_num
    have h2 : (1 / 2 : ℚ).den = 2 := by norm_num
    rw [h1, h2]
    decide
  refine ⟨by norm_num, h, ?_⟩
  unfold status_due
  rw [if_neg (by decide), if_pos h]

/-! ## IF buffer : slot writes -/

theorem store_loop_spec (conv : Nat → Option sdr_cpx_t) :
    ∀ (k j i : Nat) (buff : List sdr_cpx_t),
      (∀ t, t < k → ∃ v, conv (j + t) = some v) → i + k ≤ buff.length →
      ∃ b, store_loop conv k j (i : Int) buff = .ok b ∧ b.length = buff.length ∧
        (∀ m, m < i ∨ i + k ≤ m → b[m]? = buff[m]?) ∧
        (∀ t, t < k → b[i + t]? = conv (j + t))
  | 0, j, i, buff, _, _ => by
    refine ⟨buff, rfl, rfl, fun _ _ => rfl, ?_⟩
    intro t ht
    omega
  | k + 1, j, i, buff, hconv, hlen => by
    obtain ⟨v, hv⟩ := hconv 0 (by omega)
    have hv0 : conv j = some v := by simpa using hv
    have hguard : 0 ≤ (i : Int) ∧ (i : Int) < buff.length := by omega
    have hconv1 : ∀ t, t < k → ∃ w, conv (j + 1 + t) = some w := by
      intro t ht
      have := hconv (t + 1) (by omega)
      rwa [show j + (t + 1) = j + 1 + t by omega] at this
    have hlen1 : i + 1 + k ≤ (buff.set i v).length := by
      rw [List.length_set]
      omega
    obtain ⟨b, hb, hbl, hframe, hsamp⟩ :=
      store_loop_spec conv k (j + 1) (i + 1) (buff.set i v) hconv1 hlen1
    refine ⟨b, ?_, ?_, ?_, ?_⟩
    · unfold store_loop
      rw [hv0]
      simp only
      rw [if_pos hguard, Int.toNat_ofNat]
      exact_mod_cast hb
    · rw [hbl, List.length_set]
    · intro m hm
      rw [hframe m (by omega), List.getElem?_set]
      rw [if_neg (by omega)]
    · intro t ht
      cases t with
      | zero =>
        have h1 := hframe i (by omega)
        have h2 : (buff.set i v)[i]? = some v := by
          rw [List.getElem?_set]
          simp
          omega
        simpa [hv0, h2] using h1
      | succ t =>
        have := hsamp t (by omega)
        rwa [show i + 1 + t = i + (t + 1) by omega,
          show j + 1 + t = j + (t + 1) by omega] at this

theorem slot_bounds (N ix : Int) (hN : 0 ≤ N) (hix : 0 ≤ ix) :
    0 ≤ N * Int.tmod ix MAX_BUFF ∧ N * Int.tmod ix MAX_BUFF + N ≤ N * MAX_BUFF := by
  have h1 : 0 ≤ Int.tmod ix MAX_BUFF := Int.tmod_nonneg _ hix
  have h2 : Int.tmod ix MAX_BUFF < MAX_BUFF :=
    Int.tmod_lt_of_pos _ (by decide)
  constructor
  · exact Int.mul_nonneg hN h1
  · have : N * (Int.tmod ix MAX_BUFF + 1) ≤ N * MAX_BUFF :=
      Int.mul_le_mul_of_nonneg_left (by omega) hN
    linarith

/-- A successful `rcv_read_data` in format 1 or 2 on a receiver whose buffer
has `len_buff = N * MAX_BUFF` entries and whose file still holds one cycle:
it returns 1, and the new buffer differs from the old one only in the `N`
entries from `N * (ix % MAX_BUFF)` on, which hold the converted samples. -/
theorem rcv_read_data_ok (rcv : rcv_t) (ix : Int)
    (hN : 1 ≤ rcv.N) (hix : 0 ≤ ix)
    (hlen : (rcv.buff.length : Int) = rcv.N * MAX_BUFF)
    (hfmt : rcv.fmt = 1 ∨ rcv.fmt = 2)
    (hfp : rcv.N * (if rcv.fmt = 2 then 2 else 1) ≤ rcv.fp.length) :
    ∃ b, rcv_read_data rcv ix
        = .ok (1, { rcv with
                    raw := rcv.fp.take (rcv.N * (if rcv.fmt = 2 then 2 else 1)).toNat
                    fp := rcv.fp.drop (rcv.N * (if rcv.fmt = 2 then 2 else 1)).toNat
                    buff := b
                    ix := ix }) ∧
      b.length = rcv.buff.length ∧
      (∀ m : Nat, (m : Int) < rcv.N * Int.tmod ix MAX_BUFF ∨
          rcv.N * Int.tmod ix MAX_BUFF + rcv.N ≤ m → b[m]? = rcv.buff[m]?) ∧
      (∀ t : Nat, (t : Int) < rcv.N →
        b[(rcv.N * Int.tmod ix MAX_BUFF).toNat + t]? =
          if rcv.fmt = 1 then conv_I rcv.fp t else conv_IQ rcv.fp t) := by
  obtain ⟨hs0, hs1⟩ := slot_bounds rcv.N ix (by omega) hix
  have hsize : 0 < rcv.N * (if rcv.fmt = 2 then 2 else 1) := by
    split <;> omega
  have hfread : fread (rcv.N * (if rcv.fmt = 2 then 2 else 1)) rcv.fp
      = some (rcv.fp.take (rcv.N * (if rcv.fmt = 2 then 2 else 1)).toNat,
              rcv.fp.drop (rcv.N * (if rcv.fmt = 2 then 2 else 1)).toNat) := by
    unfold fread
    rw [if_pos ⟨hsize, hfp⟩]
  have hi : rcv.N * Int.tmod ix MAX_BUFF = ((rcv.N * Int.tmod ix MAX_BUFF).toNat : Int) :=
    (Int.toNat_of_nonneg hs0).symm
  have hbound : (rcv.N * Int.tmod ix MAX_BUFF).toNat + rcv.N.toNat ≤ rcv.buff.length := by
    omega
  rcases hfmt with h1 | h2
  · -- real samples
    have hne : ¬ rcv.fmt = 2 := by omega
    rw [if_neg hne, Int.mul_one] at hfp hfread
    have hconv : ∀ t, t < rcv.N.toNat →
        ∃ v, conv_I (rcv.fp.take rcv.N.toNat) (0 + t) = some v := by
      intro t ht
      have hlt : t < (rcv.fp.take rcv.N.toNat).length := by
        rw [List.length_take]
        omega
      refine ⟨((rcv.fp.take rcv.N.toNat)[t], 0), ?_⟩
      unfold conv_I
      rw [Nat.zero_add, List.getElem?_eq_getElem hlt]
    obtain ⟨b, hb, hbl, hframe, hsamp⟩ :=
      store_loop_spec (conv_I (rcv.fp.take rcv.N.toNat)) rcv.N.toNat 0
        (rcv.N * Int.tmod ix MAX_BUFF).toNat rcv.buff hconv hbound
    rw [← hi] at hb
    refine ⟨b, ?_, hbl, ?_, ?_⟩
    · unfold rcv_read_data
      simp only [if_neg hne, Int.mul_one, hfread, if_pos h1, hb]
    · intro m hm
      exact hframe m (by omega)
    · intro t ht
      rw [if_pos h1, hsamp t (by omega), Nat.zero_add]
      unfold conv_I
      rw [List.getElem?_take_of_lt (by omega)]
  · -- interleaved samples
    rw [if_pos h2] at hfp hfread
    have hne : ¬ rcv.fmt = 1 := by omega
    have hconv : ∀ t, t < rcv.N.toNat →
        ∃ v, conv_IQ (rcv.fp.take (rcv.N * 2).toNat) (0 + t) = some v := by
      intro t ht
      have hlt0 : t * 2 < (rcv.fp.take (rcv.N * 2).toNat).length := by
        rw [List.length_take]
        omega
      have hlt1 : t * 2 + 1 < (rcv.fp.take (rcv.N * 2).toNat).length := by
        rw [List.length_take]
        omega
      refine ⟨((rcv.fp.take (rcv.N * 2).toNat)[t * 2],
        -(rcv.fp.take (rcv.N * 2).toNat)[t * 2 + 1]), ?_⟩
      unfold conv_IQ
      rw [Nat.zero_add, List.getElem?_eq_getElem hlt0, List.getElem?_eq_getElem hlt1]
    obtain ⟨b, hb, hbl, hframe, hsamp⟩ :=
      store_loop_spec (conv_IQ (rcv.fp.take (rcv.N * 2).toNat)) rcv.N.toNat 0
        (rcv.N * Int.tmod ix MAX_BUFF).toNat rcv.buff hconv hbound
    rw [← hi] at hb
    refine ⟨b, ?_, hbl, ?_, ?_⟩
    · unfold rcv_read_data
      simp only [if_pos h2, hfread, if_neg hne, hb]
    · intro m hm
      exact hframe m (by omega)
    · intro t ht
      rw [if_neg hne, hsamp t (by omega), Nat.zero_add]
      unfold conv_IQ
      rw [List.getElem?_take_of_lt (by omega), List.getElem?_take_of_lt (by omega)]

theorem rcv_bare_buff_length (N : Int) (fp : List Int) (fmt : Int) (hN : 0 ≤ N) :
    ((rcv_bare N fp fmt).buff.length : Int) = (rcv_bare N fp fmt).N * MAX_BUFF := by
  have h : 0 ≤ N * MAX_BUFF := Int.mul_nonneg hN (by decide)
  simp only [rcv_bare, sdr_cpx_malloc, List.length_replicate]
  omega

/-- C5 (sample conversion): on a receiver with a buffer of `N * MAX_BUFF`
samples whose file holds one more cycle, `rcv_read_data` succeeds and, in
real format, for a byte `a` in [-128, 127] at raw position `j` sample `j` of
the cycle is `(a, 0)`; in interleaved format, for bytes `a`, `b` in
[-128, 127] at raw positions `2j`, `2j+1` sample `j` is `(a, -b)` with the
exact negation, so `b = -128` gives `+128`. -/
theorem sample_conversion (rcv : rcv_t) (ix : Int)
    (hN : 1 ≤ rcv.N) (hix : 0 ≤ ix)
    (hlen : (rcv.buff.length : Int) = rcv.N * MAX_BUFF)
    (hfmt : rcv.fmt = 1 ∨ rcv.fmt = 2)
    (hfp : rcv.N * (if rcv.fmt = 2 then 2 else 1) ≤ rcv.fp.length) :
    ∃ r, rcv_read_data rcv ix = .ok (1, r) ∧
      (rcv.fmt = 1 → ∀ (j : Nat) (a : Int), (j : Int) < rcv.N → -128 ≤ a → a ≤ 127 →
        rcv.fp[j]? = some a →
        r.buff[(rcv.N * Int.tmod ix MAX_BUFF).toNat + j]? = some (a, 0)) ∧
      (rcv.fmt = 2 → ∀ (j : Nat) (a b : Int), (j : Int) < rcv.N →
        -128 ≤ a → a ≤ 127 → -128 ≤ b → b ≤ 127 →
        rcv.fp[j * 2]? = some a → rcv.fp[j * 2 + 1]? = some b →
        r.buff[(rcv.N * Int.tmod ix MAX_BUFF).toNat + j]? = some (a, -b) ∧
        (b = -128 → r.buff[(rcv.N * Int.tmod ix MAX_BUFF).toNat + j]? = some (a, 128))) := by
  obtain ⟨b, hb, _, _, hsamp⟩ := rcv_read_data_ok rcv ix hN hix hlen hfmt hfp
  refine ⟨_, hb, ?_, ?_⟩
  · intro h1 j a hj _ _ ha
    show b[_]? = _
    rw [hsamp j hj, if_pos h1]
    unfold conv_I
    rw [ha]
  · intro h2 j a c hj _ _ _ _ ha hc
    have hne : ¬ rcv.fmt = 1 := by omega
    have key : b[(rcv.N * Int.tmod ix MAX_BUFF).toNat + j]? = some (a, -c) := by
      rw [hsamp j hj, if_neg hne]
      unfold conv_IQ
      rw [ha, hc]
    refine ⟨key, ?_⟩
    intro hc128
    show b[_]? = _
    rw [key, hc128]
    rfl

/-- Witness for C5: an interleaved cycle of one sample with bytes 1, -128
read as cycle 3 puts `(1, 128)` at buffer entry 3. -/
theorem sample_conversion_witness :
    ∃ r, rcv_read_data (rcv_bare 1 [1, -128] 2) 3 = .ok (1, r) ∧ r.buff[3]? = some (1, 128) := by
  obtain ⟨r, hr, _, h2⟩ := sample_conversion (rcv_bare 1 [1, -128] 2) 3 (by decide) (by decide)
    (rcv_bare_buff_length 1 _ 2 (by decide)) (Or.inr rfl) (by decide)
  exact ⟨r, hr, (h2 rfl 0 1 (-128) (by decide) (by decide) (by decide) (by decide) (by decide)
    (by decide) (by decide)).2 rfl⟩

/-- C9 (ring-buffer slot mapping): for `ix >= 0` and `N >= 1`, on a receiver
with a buffer of `len_buff = N * 1000` samples whose file holds one more
cycle, `rcv_read_data` in format 1 or 2 succeeds; the slot
`N * (ix mod 1000) .. N * (ix mod 1000) + N - 1` lies inside the buffer, each
of its `N` entries receives the converted sample, every other entry keeps its
value, the write pointer becomes `ix`, and the channel thread passes the same
offset `N * (ix mod 1000)` to the channel for cycle `ix`. -/
theorem slot_mapping (rcv : rcv_t) (ix : Int)
    (hN : 1 ≤ rcv.N) (hix : 0 ≤ ix)
    (hlb : rcv.len_buff = rcv.N * 1000)
    (hlen : (rcv.buff.length : Int) = rcv.len_buff)
    (hfmt : rcv.fmt = 1 ∨ rcv.fmt = 2)
    (hfp : rcv.N * (if rcv.fmt = 2 then 2 else 1) ≤ rcv.fp.length) :
    ∃ r, rcv_read_data rcv ix = .ok (1, r) ∧
      0 ≤ rcv.N * (ix % 1000) ∧ rcv.N * (ix % 1000) + rcv.N ≤ rcv.len_buff ∧
      r.buff.length = rcv.buff.length ∧
      (∀ t : Nat, (t : Int) < rcv.N →
        ∃ v, (if rcv.fmt = 1 then conv_I rcv.fp t else conv_IQ rcv.fp t) = some v ∧
          r.buff[(rcv.N * (ix % 1000)).toNat + t]? = some v) ∧
      (∀ m : Nat, (m : Int) < rcv.N * (ix % 1000) ∨ rcv.N * (ix % 1000) + rcv.N ≤ m →
        r.buff[m]? = rcv.buff[m]?) ∧
      r.ix = ix ∧
      (∀ (chN : Int) (obs : List Snap) (calls : List Call),
        rcv_ch_thread chN rcv.N obs = .ok calls →
        ∀ c ∈ calls, c.ix = ix → c.off = rcv.N * (ix % 1000)) := by
  have hmod : Int.tmod ix MAX_BUFF = ix % 1000 :=
    Int.tmod_eq_emod hix (by decide)
  have hlen1 : (rcv.buff.length : Int) = rcv.N * MAX_BUFF := by
    rw [hlen, hlb]
    rfl
  obtain ⟨hs0, hs1⟩ := slot_bounds rcv.N ix (by omega) hix
  obtain ⟨b, hb, hbl, hframe, hsamp⟩ := rcv_read_data_ok rcv ix hN hix hlen1 hfmt hfp
  rw [hmod] at hs0 hs1 hframe hsamp
  refine ⟨_, hb, hs0, ?_, hbl, ?_, hframe, rfl, ?_⟩
  · rw [hlb]
    exact hs1
  · intro t ht
    have hlt : (rcv.N * (ix % 1000)).toNat + t < b.length := by
      have : (b.length : Int) = rcv.N * 1000 := by
        rw [hbl, hlen, hlb]
      have hs1b : rcv.N * (ix % 1000) + rcv.N ≤ rcv.N * 1000 := hs1
      omega
    refine ⟨b[(rcv.N * (ix % 1000)).toNat + t], ?_, List.getElem?_eq_getElem hlt⟩
    rw [← hsamp t ht, List.getElem?_eq_getElem hlt]
  · intro chN obs calls hcalls c hc hcix
    unfold rcv_ch_thread at hcalls
    split at hcalls
    · cases hcalls
    · cases hcalls
      rw [(thread_loop_calls _ _ obs .outer 0 c hc).2, hcix, hmod]

/-- Witness for C9: reading cycle 1001 of real samples with `N = 2` writes
buffer entries 2 and 3 and leaves entry 4 as it was. -/
theorem slot_mapping_witness :
    ∃ r, rcv_read_data (rcv_bare 2 [7, -8, 9] 1) 1001 = .ok (1, r) ∧
      r.buff[2]? = some (7, 0) ∧ r.buff[3]? = some (-8, 0) ∧
      r.buff[4]? = (rcv_bare 2 [7, -8, 9] 1).buff[4]? ∧ r.ix = 1001 := by
  obtain ⟨r, hr, _, _, _, hw, hf, hix, _⟩ := slot_mapping (rcv_bare 2 [7, -8, 9] 1) 1001
    (by decide) (by decide) rfl
    (by rw [rcv_bare_buff_length 2 _ 1 (by decide)]; rfl) (Or.inl rfl) (by decide)
  refine ⟨r, hr, ?_, ?_, hf 4 (Or.inr (by decide)), hix⟩
  · obtain ⟨v, hv, hb⟩ := hw 0 (by decide)
    have : v = (7, 0) := by
      have h : conv_I [7, -8, 9] 0 = some v := hv
      simpa [conv_I] using h.symm
    rw [← this]
    exact hb
  · obtain ⟨v, hv, hb⟩ := hw 1 (by decide)
    have : v = (-8, 0) := by
      have h : conv_I [7, -8, 9] 1 = some v := hv
      simpa [conv_I] using h.symm
    rw [← this]
    exact hb

/-- Counterexample for C6: in the packed format 0, with `N = 1` and one byte
left in the data file, `rcv_read_data` for cycle 1 returns 1 and moves the
write pointer from 0 to 1 without converting anything. -/
theorem packed_format_publishes :
    (rcv_bare 1 [5] 0).fmt = 0 ∧ (rcv_bare 1 [5] 0).ix = 0 ∧
    rcv_read_data (rcv_bare 1 [5] 0) 1
      = .ok (1, { rcv_bare 1 [5] 0 with raw := [5], fp := [], ix := 1 }) := by
  refine ⟨rfl, rfl, ?_⟩
  unfold rcv_read_data
  have hf : fread ((rcv_bare 1 [5] 0).N * 1) (rcv_bare 1 [5] 0).fp = some ([5], []) := by
    decide
  have h1 : ¬ (rcv_bare 1 [5] 0).fmt = 1 := by decide
  have h2 : ¬ (rcv_bare 1 [5] 0).fmt = 2 := by decide
  simp only [if_neg h2, hf, if_neg h1]

/-- C6 (packed format), as the code has it: `main` hands only the selectors
1 and 2 to the receiver, and `rcv_read_data` has no failure path of its own
for another selector: when the selector is neither 1 nor 2 it converts
nothing; if the file holds one more cycle of `N >= 1` bytes it returns 1,
sets the write pointer to `ix` and leaves the sample buffer as it was, and
otherwise (short read) it returns 0 with write pointer and sample buffer
unchanged. -/
theorem packed_format_no_conversion (rcv : rcv_t) (ix : Int) (fmt0 : Int) (fi : ℚ)
    (h1 : rcv.fmt ≠ 1) (h2 : rcv.fmt ≠ 2) :
    (main_fmt fmt0 fi = 1 ∨ main_fmt fmt0 fi = 2) ∧
    (0 < rcv.N ∧ rcv.N ≤ rcv.fp.length →
      rcv_read_data rcv ix
        = .ok (1, { rcv with raw := rcv.fp.take rcv.N.toNat
                             fp := rcv.fp.drop rcv.N.toNat
                             ix := ix })) ∧
    (¬ (0 < rcv.N ∧ rcv.N ≤ rcv.fp.length) →
      rcv_read_data rcv ix = .ok (0, { rcv with fp := rcv.fp.drop rcv.N.toNat })) := by
  refine ⟨?_, ?_, ?_⟩
  · unfold main_fmt
    split
    · exact Or.inl rfl
    · exact Or.inr rfl
  · intro h
    unfold rcv_read_data fread
    simp only [if_neg h2, Int.mul_one, if_pos h, if_neg h1]
  · intro h
    unfold rcv_read_data fread
    simp only [if_neg h2, Int.mul_one, if_neg h]

/-- Witness for C6: the packed receiver with one byte left. -/
theorem packed_format_no_conversion_witness :
    rcv_read_data (rcv_bare 1 [5] 0) 1
      = .ok (1, { rcv_bare 1 [5] 0 with raw := [5], fp := [], ix := 1 }) :=
  (packed_format_no_conversion (rcv_bare 1 [5] 0) 1 1 0 (by decide) (by decide)).2.1
    ⟨by decide, by decide⟩

/-! ## IF buffer : usage -/

theorem max_nx_fold_ge (W : Int) :
    ∀ (l : List rcv_ch_t) (m : Int),
      m ≤ l.foldl (fun m c => if W + 1 - c.ix > m then W + 1 - c.ix else m) m ∧
      ∀ c ∈ l, W + 1 - c.ix ≤ l.foldl (fun m c => if W + 1 - c.ix > m then W + 1 - c.ix else m) m
  | [], m => by simp
  | d :: l, m => by
    obtain ⟨h1, h2⟩ := max_nx_fold_ge W l (if W + 1 - d.ix > m then W + 1 - d.ix else m)
    have h3 : m ≤ (if W + 1 - d.ix > m then W + 1 - d.ix else m) := by
      split <;> omega
    have h4 : W + 1 - d.ix ≤ (if W + 1 - d.ix > m then W + 1 - d.ix else m) := by
      split <;> omega
    refine ⟨?_, ?_⟩
    · simp only [List.foldl_cons]
      omega
    · intro c hc
      simp only [List.foldl_cons]
      rcases List.mem_cons.mp hc with hc | hc
      · subst hc
        omega
      · exact h2 c hc

theorem max_nx_ge (rcv : rcv_t) (c : rcv_ch_t) (hc : c ∈ rcv.ch) :
    rcv.ix + 1 - c.ix ≤ max_nx rcv :=
  (max_nx_fold_ge rcv.ix rcv.ch 0).2 c hc

theorem buff_usage_lt (r1 r2 : rcv_t) (h : max_nx r1 < max_nx r2) :
    buff_usage r1 < buff_usage r2 := by
  unfold buff_usage
  have h1 : (max_nx r1 : ℚ) < (max_nx r2 : ℚ) := by exact_mod_cast h
  have h2 : (0 : ℚ) < (MAX_BUFF : ℚ) := by
    unfold MAX_BUFF
    norm_num
  exact div_lt_div_of_pos_right h1 h2

/-- Counterexample for C7: write pointer 10 to 11, worker 0 stays at read
pointer 5, worker 1 catches up from 0 to 10 (no read pointer decreases), and
the usage falls from 11/1000 to 7/1000. -/
theorem usage_not_monotone :
    (rcv_cursors 11 [5, 10]).ix = (rcv_cursors 10 [5, 0]).ix + 1 ∧
    (rcv_cursors 11 [5, 10]).ch[0]? = (rcv_cursors 10 [5, 0]).ch[0]? ∧
    List.Forall₂ (fun c1 c2 => c1.ix ≤ c2.ix) (rcv_cursors 10 [5, 0]).ch (rcv_cursors 11 [5, 10]).ch ∧
    max_nx (rcv_cursors 10 [5, 0]) = 11 ∧ max_nx (rcv_cursors 11 [5, 10]) = 7 ∧
    ¬ (buff_usage (rcv_cursors 10 [5, 0]) < buff_usage (rcv_cursors 11 [5, 10])) := by
  have h1 : max_nx (rcv_cursors 10 [5, 0]) = 11 := by decide
  have h2 : max_nx (rcv_cursors 11 [5, 10]) = 7 := by decide
  refine ⟨by decide, by decide, ?_, h1, h2, ?_⟩
  · simp [rcv_cursors]
  · unfold buff_usage MAX_BUFF
    rw [h1, h2]
    norm_num

/-- C7 (occupancy monotonicity), as the code has it: when the write pointer
advances by one cycle and a worker with the largest lag `W + 1 - read pointer`
of the earlier state (one that attains `max_nx`) keeps its read pointer,
`buff_usage` of the later state is strictly greater than that of the earlier
state, whatever the other workers do. -/
theorem usage_increases_when_slowest_stalls (r1 r2 : rcv_t) (k : Nat) (c1 c2 : rcv_ch_t)
    (hW : r2.ix = r1.ix + 1)
    (_hc1 : r1.ch[k]? = some c1) (hc2 : r2.ch[k]? = some c2)
    (hstall : c2.ix = c1.ix)
    (hmax : r1.ix + 1 - c1.ix = max_nx r1) :
    buff_usage r1 < buff_usage r2 := by
  have h := max_nx_ge r2 c2 (List.getElem?_mem hc2)
  apply buff_usage_lt
  omega

/-- Witness for C7: write pointer 10 to 11, the slowest worker stays at read
pointer 0 while the other one advances from 5 to 9. -/
theorem usage_increases_when_slowest_stalls_witness :
    buff_usage (rcv_cursors 10 [5, 0]) < buff_usage (rcv_cursors 11 [9, 0]) :=
  usage_increases_when_slowest_stalls (rcv_cursors 10 [5, 0]) (rcv_cursors 11 [9, 0]) 1
    ⟨⟨"LOCK", 0, "", 0, 0⟩, 0⟩ ⟨⟨"LOCK", 0, "", 0, 0⟩, 0⟩ (by decide) (by decide) (by decide)
    (by decide) (by decide)

/-! ## Receiver construction -/

theorem number_from_nil (k : Nat) : number_from k [] = [] := rfl

theorem number_from_cons (k : Nat) (w : rcv_ch_t) (ws : List rcv_ch_t) :
    number_from k (w :: ws)
      = { w with ch := { w.ch with no := (k : Int) + 1 } } :: number_from (k + 1) ws := by
  simp [number_from, List.enumFrom_cons]

theorem number_from_get (ws : List rcv_ch_t) :
    ∀ (k j : Nat) (w : rcv_ch_t), (number_from k ws)[j]? = some w → w.ch.no = (k : Int) + j + 1 := by
  induction ws with
  | nil =>
    intro k j w h
    simp [number_from_nil] at h
  | cons x xs ih =>
    intro k j w h
    rw [number_from_cons] at h
    cases j with
    | zero =>
      simp only [List.getElem?_cons_zero, Option.some.injEq] at h
      rw [← h]
      simp
    | succ j =>
      simp only [List.getElem?_cons_succ] at h
      have := ih (k + 1) j w h
      rw [this]
      push_cast
      omega

theorem rcv_new_loop_spec (SDR_MAX_NCH : Int) (env_ch : Nat → String → Int → Option sdr_ch_t)
    (env_thr : Nat → Bool) :
    ∀ (rest : List (String × Int)) (i : Nat) (rcv : rcv_t) (errs : List (String × Int)),
      (rcv.ch.length : Int) + rest.length ≤ SDR_MAX_NCH →
      rcv_new_loop SDR_MAX_NCH env_ch env_thr i rest (rcv, errs)
        = ({ rcv with
             ch := rcv.ch ++ number_from rcv.ch.length
                     ((rest.enumFrom i).filterMap (ch_outcome env_ch env_thr)) },
           errs ++ ((rest.enumFrom i).filter
                     (fun ip => (ch_outcome env_ch env_thr ip).isNone)).map Prod.snd)
  | [], i, rcv, errs, _ => by
    simp [rcv_new_loop, number_from_nil]
  | (sig, prn) :: rest, i, rcv, errs, hle => by
    have hlt : rcv.nch < SDR_MAX_NCH := by
      unfold rcv_t.nch
      simp only [List.length_cons, Nat.cast_add, Nat.cast_one] at hle
      omega
    unfold rcv_new_loop
    rw [if_pos hlt]
    cases hres : rcv_ch_new (env_ch i) (env_thr i) sig prn with
    | none =>
      have hout : ch_outcome env_ch env_thr (i, sig, prn) = none := hres
      simp only
      rw [rcv_new_loop_spec SDR_MAX_NCH env_ch env_thr rest (i + 1) rcv (errs ++ [(sig, prn)])
        (by simp only [List.length_cons, Nat.cast_add, Nat.cast_one] at hle; omega)]
      simp [List.enumFrom_cons, hout]
    | some w =>
      have hout : ch_outcome env_ch env_thr (i, sig, prn) = some w := hres
      simp only
      rw [rcv_new_loop_spec SDR_MAX_NCH env_ch env_thr rest (i + 1) _ errs
        (by simp only [List.length_append, List.length_cons, List.length_nil, Nat.cast_add,
              Nat.cast_one] at hle ⊢; omega)]
      simp [List.enumFrom_cons, hout, number_from_cons, rcv_t.nch]

theorem number_from_length (ws : List rcv_ch_t) (k : Nat) :
    (number_from k ws).length = ws.length := by
  simp [number_from]

theorem filterMap_length_eq_filter {α β : Type} (f : α → Option β) :
    ∀ l : List α, (l.filterMap f).length = (l.filter (fun a => (f a).isSome)).length
  | [] => rfl
  | a :: l => by
    have ih := filterMap_length_eq_filter f l
    cases h : f a with
    | none => simp [List.filterMap_cons, List.filter_cons, h, ih]
    | some b => simp [List.filterMap_cons, List.filter_cons, h, ih]

/-- C8 (per-channel construction failure is skipped): for `n <= SDR_MAX_NCH`
signal/PRN pairs and any outcomes of `rcv_ch_new`, the receiver built by
`rcv_new` has as many workers as pairs whose construction succeeded; its
workers are the constructed channels of those pairs in input order, numbered
1, 2, ... without gaps; and stderr gets one "signal / prn error" entry for
each failed pair, in input order, the later pairs being processed all the
same. -/
theorem rcv_new_skips_failed (SDR_MAX_NCH : Int)
    (env_ch : Nat → String → Int → Option sdr_ch_t) (env_thr : Nat → Bool)
    (pairs : List (String × Int)) (fs : ℚ) (fp : List Int) (fmt : Int)
    (hn : (pairs.length : Int) ≤ SDR_MAX_NCH) :
    (rcv_new SDR_MAX_NCH env_ch env_thr pairs fs fp fmt).1.nch
      = ((pairs.enumFrom 0).filter (fun ip => (ch_outcome env_ch env_thr ip).isSome)).length ∧
    (rcv_new SDR_MAX_NCH env_ch env_thr pairs fs fp fmt).1.ch
      = number_from 0 ((pairs.enumFrom 0).filterMap (ch_outcome env_ch env_thr)) ∧
    (∀ (k : Nat) (w : rcv_ch_t),
      (rcv_new SDR_MAX_NCH env_ch env_thr pairs fs fp fmt).1.ch[k]? = some w →
      w.ch.no = (k : Int) + 1) ∧
    (rcv_new SDR_MAX_NCH env_ch env_thr pairs fs fp fmt).2
      = ((pairs.enumFrom 0).filter
          (fun ip => (ch_outcome env_ch env_thr ip).isNone)).map Prod.snd := by
  have hloop : rcv_new SDR_MAX_NCH env_ch env_thr pairs fs fp fmt
      = ({ rcv_bare (c_int (T_CYC * fs)) fp fmt with
           ch := number_from 0 ((pairs.enumFrom 0).filterMap (ch_outcome env_ch env_thr)) },
         ((pairs.enumFrom 0).filter
           (fun ip => (ch_outcome env_ch env_thr ip).isNone)).map Prod.snd) := by
    unfold rcv_new
    rw [rcv_new_loop_spec SDR_MAX_NCH env_ch env_thr pairs 0 _ []
      (by simp only [rcv_bare, sdr_malloc_rcv, List.length_nil, Nat.cast_zero]; omega)]
    simp [rcv_bare, sdr_malloc_rcv]
  rw [hloop]
  refine ⟨?_, rfl, ?_, rfl⟩
  · unfold rcv_t.nch
    simp only
    rw [number_from_length, filterMap_length_eq_filter]
  · intro k w hw
    have := number_from_get _ 0 k w hw
    simpa using this

/-- Witness for C8: PRN 0 between PRN 1 and PRN 3 gives two workers numbered
1 and 2 for PRN 1 and PRN 3 and one error entry for PRN 0. -/
theorem rcv_new_skips_failed_witness :
    (rcv_new 3 env_ch_sample (fun _ => true) [("L1CA", 1), ("L1CA", 0), ("L1CA", 3)]
        12000000 [] 1).1.nch = 2 ∧
    (rcv_new 3 env_ch_sample (fun _ => true) [("L1CA", 1), ("L1CA", 0), ("L1CA", 3)]
        12000000 [] 1).1.ch
      = [⟨⟨"IDLE", 1, "L1CA", 1, 12000⟩, 0⟩, ⟨⟨"IDLE", 2, "L1CA", 3, 12000⟩, 0⟩] ∧
    (rcv_new 3 env_ch_sample (fun _ => true) [("L1CA", 1), ("L1CA", 0), ("L1CA", 3)]
        12000000 [] 1).2 = [("L1CA", 0)] := by
  obtain ⟨h1, h2, _, h4⟩ := rcv_new_skips_failed 3 env_ch_sample (fun _ => true)
    [("L1CA", 1), ("L1CA", 0), ("L1CA", 3)] 12000000 [] 1 (by decide)
  refine ⟨?_, ?_, ?_⟩
  · rw [h1]
    decide
  · rw [h2]
    decide
  · rw [h4]
    decide

end PocketTrk
